import Mathlib

/-!
Verification development for the gbulk bulk-backup orchestrator.

The definitions below are shallow embeddings of the JavaScript sources:
`src/commons.js` (filter resolution and include/exclude filtering),
`src/lib/github-api.js` (paginated repository listing client),
`src/lib/git.js` (ref cleanup over a mirror clone) and
`src/commands/backup.js` (per-repository pipeline, destination handling and
graceful shutdown).  External collaborators (the JS `RegExp` engine, `axios`
page fetches, the `git` executable, the filesystem) are modelled at their
interface boundary.
-/

namespace Gbulk

/-- Tri-state value of an oclif boolean flag: `--flag` gives `isTrue`,
`--no-flag` gives `isFalse`, an omitted flag is `unset` (JS `undefined`). -/
inductive TriState where
  | isTrue
  | isFalse
  | unset
deriving DecidableEq, Repr, Fintype

/-- JS truthiness of a tri-state flag value: only `true` is truthy
(`false` and `undefined` are falsy). -/
def TriState.truthy : TriState → Bool
  | .isTrue => true
  | _ => false

/-- The search-filter flags of the backup command that `buildFetchOptions`
reads (`src/commons.js` line 157 destructures `public`, `private`, `member`,
`owner` and the two forEach loops read `owner`, `collaborator`, `member`),
plus the `exclude` / `match` pattern lists used by `handleExclusions` /
`handleInclusions`.  `none` models an oclif `multiple` flag that was not
passed (JS `undefined`). -/
structure Flags where
  isPublic : TriState
  isPrivate : TriState
  owner : TriState
  collaborator : TriState
  member : TriState
  exclude : Option (List String)
  matchPats : Option (List String)
deriving DecidableEq, Repr

/-- The fixed iteration order of `src/commons.js` line 198:
`const affiliationFlags = ['owner', 'collaborator', 'member']`. -/
def affiliationFlags : List String := ["owner", "collaborator", "member"]

/-- Dynamic lookup `this.flags[flag]` for the three affiliation flags
(`src/commons.js` lines 202 and 209). -/
def flagValue (owner collaborator member : TriState) : String → TriState
  | "owner" => owner
  | "collaborator" => collaborator
  | "member" => member
  | _ => .unset

/-- The affiliation list built by `buildFetchOptions` for account type
`Authenticated` (`src/commons.js` lines 198-212): a first pass pushes every
flag whose value is truthy (explicitly `true`); if that produced nothing, a
second pass pushes every flag whose value is not explicitly `false`. -/
def authAffiliation (owner collaborator member : TriState) : List String :=
  let first := affiliationFlags.foldl
    (fun acc f => if (flagValue owner collaborator member f).truthy then acc ++ [f] else acc) []
  if first.isEmpty then
    affiliationFlags.foldl
      (fun acc f => if flagValue owner collaborator member f == .isFalse then acc else acc ++ [f]) []
  else first

/-- The remap `aff === 'member' ? 'organization_member' : aff` applied in the
`Authenticated` branch (`src/commons.js` line 222). -/
def remapAff (aff : String) : String :=
  if aff == "member" then "organization_member" else aff

/-- The affiliation entries sent as the `affiliation` query parameter for an
`Authenticated` listing (`src/commons.js` line 222; the source joins this
list with `","` to build the query-string value). -/
def authAffiliationParams (owner collaborator member : TriState) : List String :=
  (authAffiliation owner collaborator member).map remapAff

/-- The `visibility` parameter of the `Authenticated` branch
(`src/commons.js` line 197):
`isPublic && !isPrivate ? 'public' : isPrivate && !isPublic ? 'private' : 'all'`. -/
def authVisibility (isPublic isPrivate : TriState) : String :=
  if isPublic.truthy && !isPrivate.truthy then "public"
  else if isPrivate.truthy && !isPublic.truthy then "private"
  else "all"

/-- The `type` parameter of the `User` branch (`src/commons.js` line 164):
`member && !owner ? 'member' : owner && !member ? 'owner' : 'all'`. -/
def userTypeParam (member owner : TriState) : String :=
  if member.truthy && !owner.truthy then "member"
  else if owner.truthy && !member.truthy then "owner"
  else "all"

/-- The `type` parameter of the `Organization` branch
(`src/commons.js` lines 173-180). -/
def orgTypeParam (isPublic isPrivate member : TriState) : String :=
  if isPublic.truthy && !isPrivate.truthy && !member.truthy then "public"
  else if isPrivate.truthy && !isPublic.truthy && !member.truthy then "private"
  else if member.truthy && !isPublic.truthy && !isPrivate.truthy then "member"
  else "all"

/-- The `options.params` object of `buildFetchOptions`: the `User` and
`Organization` branches set `{ type: t }`, the `Authenticated` branch sets
`{ affiliation, visibility }` (the affiliation list is joined with `","` by
the source before being sent on the wire). -/
inductive FetchParams where
  | typeParams (t : String)
  | authParams (affiliation : List String) (visibility : String)
deriving DecidableEq, Repr

/-- The options object returned by `buildFetchOptions`:
`{ type, params }` (`src/commons.js` lines 158-161). -/
structure FetchOptions where
  type : String
  params : FetchParams
deriving DecidableEq, Repr

/-- Shallow embedding of `buildFetchOptions` (`src/commons.js` lines
156-230).  The account `type` string selects the branch; an unknown type
reaches `this.error(...)`, which throws a `CLIError` (modelled as
`Except.error`). -/
def buildFetchOptions (type : String) (fl : Flags) : Except String FetchOptions :=
  if type == "User" then
    .ok { type, params := .typeParams (userTypeParam fl.member fl.owner) }
  else if type == "Organization" then
    .ok { type, params := .typeParams (orgTypeParam fl.isPublic fl.isPrivate fl.member) }
  else if type == "Authenticated" then
    .ok { type
          params := .authParams
            (authAffiliationParams fl.owner fl.collaborator fl.member)
            (authVisibility fl.isPublic fl.isPrivate) }
  else
    .error ("User type " ++ type ++ " is not handled.")

/-! ## Remote listing client (`src/lib/github-api.js`) -/

/-- Split a character list at every occurrence of the separator `c`;
character-level model of JS `String.prototype.split` with a one-character
separator (an empty input yields one empty field, a trailing separator
yields a trailing empty field). -/
def splitOnChar (c : Char) : List Char → List (List Char)
  | [] => [[]]
  | x :: xs =>
    let r := splitOnChar c xs
    if x = c then [] :: r
    else
      match r with
      | [] => [[x]]
      | y :: ys => (x :: y) :: ys

/-- True when `pat` occurs as a contiguous sublist of `s`. -/
def containsSubL (s pat : List Char) : Bool :=
  (List.range (s.length + 1)).any (fun i => pat.isPrefixOf (s.drop i))

/-- True when `pat` occurs as a substring of `s`; model of JS
`s.indexOf(pat) !== -1`. -/
def containsSub (s pat : String) : Bool :=
  containsSubL s.toList pat.toList

/-- Replace the first occurrence of `pat` in a character list by `repl`;
model of JS `String.prototype.replace` with a non-global regex whose pattern
is the literal `pat`. -/
def replaceFirstAux (pat repl : List Char) : List Char → List Char
  | [] => []
  | c :: rest =>
    if pat.isPrefixOf (c :: rest) then repl ++ (c :: rest).drop pat.length
    else c :: replaceFirstAux pat repl rest

/-- String version of `replaceFirstAux`; models
`str.replace(/github.com/, ...)` in `src/lib/github-api.js` line 130 (the
pattern occurs literally in clone URLs). -/
def replaceFirst (s pat repl : String) : String :=
  ⟨replaceFirstAux pat.toList repl.toList s.toList⟩

/-- The `permissions` object attached to a raw GitHub repository record;
only the `pull` field is inspected (`src/lib/github-api.js` line 120). -/
structure Permissions where
  pull : Bool
deriving DecidableEq, Repr

/-- A raw repository record as returned by the listing endpoint
(the fields that `recurseRepositories` reads, `src/lib/github-api.js`
lines 119-132).  `permissions` is `none` when the API response carries no
permissions object (JS `repo.permissions` undefined). -/
structure RawRepo where
  full_name : String
  name : String
  description : String
  isPrivate : Bool
  fork : Bool
  clone_url : String
  permissions : Option Permissions
deriving DecidableEq, Repr

/-- A normalized repository record pushed into the accumulator
(`src/lib/github-api.js` lines 123-132). -/
structure Repo where
  fullName : String
  name : String
  description : String
  isPrivate : Bool
  fork : Bool
  httpsUrl : String
deriving DecidableEq, Repr

/-- The guard of `src/lib/github-api.js` line 120: a record is skipped iff
`repo.permissions && !repo.permissions.pull`, i.e. it is kept when the
permissions object is absent or grants pull. -/
def keepRepo (repo : RawRepo) : Bool :=
  match repo.permissions with
  | some p => p.pull
  | none => true

/-- Normalization of a kept record (`src/lib/github-api.js` lines 123-132):
the HTTPS clone URL gets the token embedded as URL userinfo. -/
def normalize (token : String) (repo : RawRepo) : Repo :=
  { fullName := repo.full_name
    name := repo.name
    description := repo.description
    isPrivate := repo.isPrivate
    fork := repo.fork
    httpsUrl := replaceFirst repo.clone_url "github.com" (token ++ "@github.com") }

/-- The per-page `reduce` of `src/lib/github-api.js` lines 119-136: drop
records without pull permission, normalize and push the rest. -/
def processPage (token : String) (data : List RawRepo) : List Repo :=
  data.foldl (fun acc repo => if keepRepo repo then acc ++ [normalize token repo] else acc) []

/-- One page fetch at the `axios` boundary: `fail` models a network error or
a non-2xx response (`axios` rejects, the `catch` at lines 111-114 leaves
`res = {}`); `ok data hasNext` models a 2xx response whose body is `data`
and whose `Link` header does (`hasNext = true`) or does not carry a
`rel="next"` entry. -/
inductive PageResp where
  | fail
  | ok (data : List RawRepo) (hasNext : Bool)
deriving DecidableEq, Repr

/-- Shallow embedding of `recurseRepositories` (`src/lib/github-api.js`
lines 96-164) over the stream of responses the server produces.  On a
failed fetch `res` is `{}`, so `repos` stays `[]`, no `Link` header is
found, and the accumulated `repositories.concat(repos)` — the records of the
previously fetched pages — is returned; the failure is only debug-logged,
never thrown.  On a success the retained records are appended and the
`rel="next"` link, when present, is followed. -/
def recurseRepositories (token : String) : List PageResp → List Repo → List Repo
  | [], acc => acc
  | .fail :: _, acc => acc
  | .ok data hasNext :: rest, acc =>
    let repos := processPage token data
    if hasNext then recurseRepositories token rest (acc ++ repos)
    else acc ++ repos

/-- Shallow embedding of `GithubAPI.get.repositories` (`src/lib/github-api.js`
lines 66-82): a falsy token throws; a falsy `from` fetches the authenticated
user's repositories through `recurseRepositories`; any other `from` value
returns `[]` without issuing a request.  The `options` argument is forwarded
to the page fetch as query parameters and never inspected here.
(`fromAcct` renders the source's `from` parameter, a Lean keyword.) -/
def getRepositories (token fromAcct : String) (options : Option FetchOptions)
    (pages : List PageResp) : Except String (List Repo) :=
  if token == "" then
    .error "No token provided @getAuthenticatedUserRepositories"
  else if fromAcct == "" then
    .ok (recurseRepositories token pages [])
  else
    .ok []

/-- Authentication record stored by `gbulk login`; `commons.checkAuth`
accepts it only when both `token` and `user` are truthy (non-empty). -/
structure Auth where
  user : String
  token : String
deriving DecidableEq, Repr

/-- The repository-fetch call of `BackupCommand.run`
(`src/commands/backup.js` lines 613-617): it always passes `from`, which is
`args.from`, defaulted by the Joi args schema (line 170) to the
authenticated user's login when the positional argument is absent. -/
def runFetchRepositories (auth : Auth) (fromArg : Option String)
    (options : Option FetchOptions) (pages : List PageResp) : Except String (List Repo) :=
  getRepositories auth.token (fromArg.getD auth.user) options pages

/-- Response pages built from a list of page bodies, every page but the last
carrying a `rel="next"` link: the shape of a fully successful paginated
listing. -/
def mkPages : List (List RawRepo) → List PageResp
  | [] => []
  | [d] => [.ok d false]
  | d :: rest => .ok d true :: mkPages rest

/-- Response pages that all carry a `rel="next"` link, used to place a
failing page after a successful prefix. -/
def mkPagesNext (ds : List (List RawRepo)) : List PageResp :=
  ds.map (fun d => .ok d true)

/-- A page body of `n` distinct records named `tag0`, `tag1`, …, each with
pull permission granted. -/
def pageOfSize (tag : String) (n : Nat) : List RawRepo :=
  (List.range n).map (fun i =>
    { full_name := "acct/" ++ tag ++ toString i
      name := tag ++ toString i
      description := ""
      isPrivate := false
      fork := false
      clone_url := "https://github.com/acct/" ++ tag ++ toString i ++ ".git"
      permissions := some { pull := true } })

/-! ## Inclusion/exclusion filter (`src/commons.js`) -/

/-- Model of the external JS `RegExp` engine's `test` (unanchored search),
restricted to the pattern shapes the repository's flags exercise: an
anchored literal `^lit$`, an anchored alternation of literals
`^(lit1|lit2|…)$`, and otherwise a literal substring search. -/
def regexTest (pattern name : String) : Bool :=
  let p := pattern.toList
  if p.head? == some '^' && p.getLast? == some '$' then
    let body := (p.drop 1).dropLast
    if body.head? == some '(' && body.getLast? == some ')' then
      (splitOnChar '|' ((body.drop 1).dropLast)).any (fun alt => name.toList == alt)
    else name.toList == body
  else containsSubL name.toList p

/-- Shallow embedding of `handleExclusions` (`src/commons.js` lines
239-269), parameterized by the external regex engine `test`.  When the
`exclude` flag is absent or empty the list is returned unchanged; otherwise
a repository is kept by the inner `reduce` (initial `acc = true`, short
circuiting once false) only while no pattern matches its short `name`. -/
def handleExclusions (test : String → String → Bool) (exclude : Option (List String))
    (repositories : List Repo) : List Repo :=
  match exclude with
  | some pats =>
    if pats.isEmpty then repositories
    else repositories.filter (fun repo =>
      pats.foldl (fun acc p => if acc then !test p repo.name else acc) true)
  | none => repositories

/-- Shallow embedding of `handleInclusions` (`src/commons.js` lines
276-306): same structure as `handleExclusions` but a repository is kept
only while every `match` pattern matches its short `name`. -/
def handleInclusions (test : String → String → Bool) (matchPats : Option (List String))
    (repositories : List Repo) : List Repo :=
  match matchPats with
  | some pats =>
    if pats.isEmpty then repositories
    else repositories.filter (fun repo =>
      pats.foldl (fun acc p => if acc then test p repo.name else acc) true)
  | none => repositories

/-- Concrete repository record with short name `n` under owner `own`. -/
def mkRepo (n : String) : Repo :=
  { fullName := "own/" ++ n
    name := n
    description := ""
    isPrivate := false
    fork := false
    httpsUrl := "https://tok@github.com/own/" ++ n ++ ".git" }

/-! ## Ref cleanup (`src/lib/git.js` and `src/commands/backup.js`) -/

/-- State of a local mirror clone at the `git` process boundary: the lines
`git show-ref` prints, each of the form `"<hash> <refname>"`.  `git
show-ref` exits 1 (and prints nothing) exactly when the repository has no
refs; `git update-ref -d <ref>` removes the ref with that exact name. -/
structure MirrorState where
  lines : List String
deriving DecidableEq, Repr

/-- Second field of a `show-ref` output line:
`const [, _ref] = ref.split(' ')` (`src/lib/git.js` line 52). -/
def refnameOf (line : String) : Option String :=
  ((splitOnChar ' ' line.toList).map String.mk)[1]?

/-- The push condition of `src/lib/git.js` line 54:
`_ref && _ref.indexOf('/pull/') !== -1` (an empty split field is falsy). -/
def isPullName (r : String) : Bool :=
  !(r == "") && containsSub r "/pull/"

/-- A `show-ref` line whose refname passes the `/pull/` test. -/
def isPullLine (line : String) : Bool :=
  match refnameOf line with
  | some r => isPullName r
  | none => false

/-- The `reduce` of `src/lib/git.js` lines 51-59 collecting the refnames to
delete from the `show-ref` output lines. -/
def refsToDelete (lines : List String) : List String :=
  lines.foldl (fun acc line =>
    match refnameOf line with
    | some r => if isPullName r then acc ++ [r] else acc
    | none => acc) []

/-- Outcome of one `Git.cleanRefs` invocation: the value the JS function
returns, the mirror state after the `update-ref -d` loop, and how many refs
were deleted. -/
structure CleanResult where
  returned : Bool
  state : MirrorState
  deleted : Nat
deriving DecidableEq, Repr

/-- Shallow embedding of `Git.cleanRefs` (`src/lib/git.js` lines 37-69).
When the mirror has no refs, `git show-ref` exits 1 and the `catch` returns
`false`.  Otherwise the `/pull/` refnames are collected from the output
lines, each is deleted with `git update-ref -d`, and the function returns
`true` — also when `refsToDel` is empty and the deletion loop is skipped. -/
def cleanGithubRefs (s : MirrorState) : CleanResult :=
  if s.lines.isEmpty then
    { returned := false, state := s, deleted := 0 }
  else
    let toDel := refsToDelete s.lines
    { returned := true
      state := ⟨s.lines.filter (fun l =>
        match refnameOf l with
        | some r => !toDel.contains r
        | none => true)⟩
      deleted := toDel.length }

/-- The spinner text chosen by `BackupCommand.cleanRefs`
(`src/commands/backup.js` lines 495-511) from the value `Git.cleanRefs`
returned: truthy reports `Refs cleaned`, falsy reports `No ref to clean`. -/
def cleanRefsReport (returned : Bool) : String :=
  if returned then "Refs cleaned" else "No ref to clean"

/-! ## Backup pipeline and exit status (`src/commands/backup.js`) -/

/-- Results of the external per-repository operations, indexed by the
repository full name: whether `git clone --mirror` succeeds, whether
`git lfs fetch --all` succeeds, whether `Git.cleanRefs` completes without
throwing. -/
structure PipelineEnv where
  cloneOk : String → Bool
  lfsOk : String → Bool
  refsOk : String → Bool

/-- Terminal per-repository state produced by one `mapLimit` callback of
`BackupCommand.backup`. -/
structure RepoOutcome where
  fullName : String
  cloned : Bool
  lfsWarn : Bool
  refsWarn : Bool
deriving DecidableEq, Repr

/-- One `mapLimit` callback of `BackupCommand.backup`
(`src/commands/backup.js` lines 537-572): a clone failure is caught by the
callback's own `catch` and only debug-logged, so it is fatal for this
repository alone and the stages after the clone are skipped; when the clone
succeeds, the LFS stage (if the `lfs` flag is set) and the ref-cleanup stage
(if the `clean-refs` flag is set) each record a warning flag on failure
(`fetchLFS` / `cleanRefs` return `true`) without aborting the other. -/
def processRepo (lfs cleanRefs : Bool) (env : PipelineEnv) (fullName : String) : RepoOutcome :=
  if env.cloneOk fullName then
    { fullName
      cloned := true
      lfsWarn := lfs && !env.lfsOk fullName
      refsWarn := cleanRefs && !env.refsOk fullName }
  else
    { fullName, cloned := false, lfsWarn := false, refsWarn := false }

/-- Shallow embedding of `BackupCommand.backup` (`src/commands/backup.js`
lines 532-573): every repository of the list is dispatched to the
`mapLimit` pool exactly once; since each callback traps its own errors, the
aggregate is the list of independent per-repository outcomes, in input
order. -/
def backup (lfs cleanRefs : Bool) (env : PipelineEnv) (repos : List String) : List RepoOutcome :=
  repos.map (processRepo lfs cleanRefs env)

/-- Exit code of a completed `BackupCommand.run`
(`src/commands/backup.js` lines 578-649): `run` never calls `this.exit`, no
variable accumulates an error code, and the per-repository outcomes of
`backup` are never consulted after the pipeline finishes (the `catch` inside
each callback only debug-logs, `fetchLFS`/`cleanRefs` warnings only pick the
spinner color), so a run that reaches the end exits with the oclif default
code 0 whatever the outcomes were. -/
def runExitCode (outcomes : List RepoOutcome) : Nat :=
  0

/-- Environment in which every clone fails (and both optional stages would
succeed). -/
def envCloneFail : PipelineEnv :=
  { cloneOk := fun _ => false, lfsOk := fun _ => true, refsOk := fun _ => true }

/-- Environment in which the LFS fetch fails for every repository while
clones and ref cleanups succeed. -/
def envLfsFail : PipelineEnv :=
  { cloneOk := fun _ => true, lfsOk := fun _ => false, refsOk := fun _ => true }

/-- Environment in which exactly the repository `own/x` fails to clone. -/
def envFailX : PipelineEnv :=
  { cloneOk := fun n => !(n == "own/x"), lfsOk := fun _ => true, refsOk := fun _ => true }

/-- Environment in which every operation succeeds. -/
def envAllOk : PipelineEnv :=
  { cloneOk := fun _ => true, lfsOk := fun _ => true, refsOk := fun _ => true }

/-! ## Destination handling and graceful shutdown
(`src/commands/backup.js` lines 246-273 and the `shutdown` handler) -/

/-- Result of probing the destination path at the filesystem boundary:
it exists and is writable, it is absent and `mkdir` succeeds, it is absent
and `mkdir` fails, or `access` fails for another reason. -/
inductive DestProbe where
  | preexistingWritable
  | absentCreatable
  | absentNotCreatable
  | notAccessible
deriving DecidableEq, Repr

/-- Shallow embedding of `BackupCommand.checkDestination`
(`src/commands/backup.js` lines 246-273): returns the value of
`this.destinationCreated`, which is set to `true` only when this run
created the directory; a pre-existing writable destination leaves it
`false`; the two failure paths call `this.error` (fatal configuration
error). -/
def checkDestination : DestProbe → Except String Bool
  | .preexistingWritable => .ok false
  | .absentCreatable => .ok true
  | .absentNotCreatable => .error "Cannot create destination"
  | .notAccessible => .error "Cannot access destination"

/-- Observable effect of the `shutdown` signal handler. -/
structure ShutdownEffect where
  removedDestination : Bool
  exitCode : Option Nat
deriving DecidableEq, Repr

/-- Shallow embedding of `BackupCommand.shutdown` (the graceful-shutdown
handler registered for SIGINT and friends): when `destinationCreated` is
set, `fs.rmdirSync(destination)` is attempted — it succeeds exactly when
the directory is still empty, removing it (and the handler returns without
an explicit exit call); when `rmdirSync` throws (directory non-empty) or
the destination was pre-existing, the directory is left untouched and the
handler calls `process.exit(130)`. -/
def shutdown (destinationCreated destEmpty : Bool) : ShutdownEffect :=
  if destinationCreated then
    if destEmpty then { removedDestination := true, exitCode := none }
    else { removedDestination := false, exitCode := some 130 }
  else
    { removedDestination := false, exitCode := some 130 }

/-! ## Concrete instances used by witnesses and counterexamples -/

/-- The refname a `show-ref` line contributes to the deletion list, if any:
functional form of one step of the `reduce` of `src/lib/git.js` lines 51-59. -/
def pullNameOf (line : String) : Option String :=
  match refnameOf line with
  | some r => if isPullName r then some r else none
  | none => none

/-- A raw record whose permissions lack `pull`. -/
def rawNoPull : RawRepo :=
  { full_name := "own/secret", name := "secret", description := "", isPrivate := true,
    fork := false, clone_url := "https://github.com/own/secret.git",
    permissions := some { pull := false } }

/-- A raw record whose permissions grant `pull`. -/
def rawPull : RawRepo :=
  { full_name := "own/open", name := "open", description := "", isPrivate := false,
    fork := false, clone_url := "https://github.com/own/open.git",
    permissions := some { pull := true } }

/-- A freshly cloned mirror holding one branch ref and one GitHub pull
ref. -/
def mirrorMasterPull : MirrorState :=
  ⟨["h1 refs/heads/master", "h2 refs/pull/1/head"]⟩

/-- Flags with only `--member` set. -/
def memberOnlyFlags : Flags :=
  { isPublic := .unset, isPrivate := .unset, owner := .unset, collaborator := .unset,
    member := .isTrue, exclude := none, matchPats := none }

/-! ## Helper lemmas -/

/-- A fold that conditionally pushes `f x` collects exactly the filtered,
mapped elements after the initial accumulator. -/
theorem foldl_push_filter {α β : Type} (p : α → Bool) (f : α → β) :
    ∀ (l : List α) (acc : List β),
      l.foldl (fun acc x => if p x then acc ++ [f x] else acc) acc
        = acc ++ (l.filter p).map f := by
  intro l
  induction l with
  | nil => intro acc; simp
  | cons x xs ih =>
    intro acc
    by_cases h : p x
    · simp [List.foldl_cons, h, ih, List.filter_cons]
    · simp [List.foldl_cons, h, ih, List.filter_cons]

/-- The short-circuiting `reduce` of the pattern filters is the conjunction
of all pattern tests. -/
theorem foldl_and {α : Type} (f : α → Bool) :
    ∀ (l : List α) (b : Bool),
      l.foldl (fun acc x => if acc then f x else acc) b = (b && l.all f) := by
  intro l
  induction l with
  | nil => intro b; simp
  | cons x xs ih =>
    intro b
    cases b
    · simp [List.foldl_cons, ih]
    · simp [List.foldl_cons, ih]

/-- `processPage` keeps exactly the records with pull permission, in order,
each normalized. -/
theorem processPage_eq (token : String) (data : List RawRepo) :
    processPage token data = (data.filter keepRepo).map (normalize token) := by
  have h := foldl_push_filter keepRepo (normalize token) data []
  simpa [processPage] using h

/-- Splitting a list by a Boolean predicate preserves its length. -/
theorem length_filter_add_not {α : Type} (p : α → Bool) :
    ∀ l : List α, (l.filter p).length + (l.filter (fun x => !p x)).length = l.length := by
  intro l
  induction l with
  | nil => simp
  | cons x xs ih =>
    by_cases h : p x
    · simp [List.filter_cons, h, ← ih]; omega
    · simp [List.filter_cons, h, ← ih]; omega

/-- `refsToDelete` is the `filterMap` of `pullNameOf`. -/
theorem refsToDelete_eq (lines : List String) :
    refsToDelete lines = lines.filterMap pullNameOf := by
  suffices h : ∀ (l : List String) (acc : List String),
      l.foldl (fun acc line =>
        match refnameOf line with
        | some r => if isPullName r then acc ++ [r] else acc
        | none => acc) acc = acc ++ l.filterMap pullNameOf by
    simpa [refsToDelete] using h lines []
  intro l
  induction l with
  | nil => intro acc; simp
  | cons x xs ih =>
    intro acc
    cases hx : refnameOf x with
    | none => simp [List.foldl_cons, hx, ih, List.filterMap_cons, pullNameOf]
    | some r =>
      by_cases hp : isPullName r
      · simp [List.foldl_cons, hx, hp, ih, List.filterMap_cons, pullNameOf]
      · simp [List.foldl_cons, hx, hp, ih, List.filterMap_cons, pullNameOf]

/-- `pullNameOf` produces a value exactly on pull lines. -/
theorem pullNameOf_isSome (l : String) : (pullNameOf l).isSome = isPullLine l := by
  unfold pullNameOf isPullLine
  cases refnameOf l with
  | none => rfl
  | some r => by_cases hp : isPullName r <;> simp [hp]

/-- Every refname collected for deletion passes the `/pull/` test. -/
theorem mem_refsToDelete_isPull {lines : List String} {r : String}
    (h : r ∈ refsToDelete lines) : isPullName r = true := by
  rw [refsToDelete_eq] at h
  rcases List.mem_filterMap.mp h with ⟨l, _, hl⟩
  cases hx : refnameOf l with
  | none => simp [pullNameOf, hx] at hl
  | some r' =>
    by_cases hp : isPullName r'
    · have hrr : r' = r := by simpa [pullNameOf, hx, hp] using hl
      rwa [← hrr]
    · simp [pullNameOf, hx, hp] at hl

/-- A line of the `show-ref` output whose refname passes the `/pull/` test
contributes that refname to the deletion list. -/
theorem pull_line_mem_refsToDelete {lines : List String} {l r : String}
    (hl : l ∈ lines) (hr : refnameOf l = some r) (hp : isPullName r = true) :
    r ∈ refsToDelete lines := by
  rw [refsToDelete_eq]
  exact List.mem_filterMap.mpr ⟨l, hl, by simp [pullNameOf, hr, hp]⟩

/-- Generic length identity between a `filterMap` and the matching
filter. -/
theorem length_filterMap_eq_filter {α β : Type} (f : α → Option β) (p : α → Bool)
    (h : ∀ a, (f a).isSome = p a) :
    ∀ l : List α, (l.filterMap f).length = (l.filter p).length := by
  intro l
  induction l with
  | nil => simp
  | cons x xs ih =>
    cases hx : f x with
    | none =>
      have hp : p x = false := by rw [← h x, hx]; rfl
      simp [List.filterMap_cons, hx, List.filter_cons, hp, ih]
    | some b =>
      have hp : p x = true := by rw [← h x, hx]; rfl
      simp [List.filterMap_cons, hx, List.filter_cons, hp, ih]

/-- `all` over a mapped list tests the composite predicate. -/
theorem all_map_general {α β : Type} (f : α → β) (p : β → Bool) :
    ∀ l : List α, (l.map f).all p = l.all (fun x => p (f x)) := by
  intro l
  induction l with
  | nil => rfl
  | cons x xs ih => simp [List.all_cons, ih]

/-! ## Claim theorems -/

/-- C1: for account type `Authenticated`, `buildFetchOptions` resolves the
affiliation set through `authAffiliation`; if at least one of the flags
`owner`, `collaborator`, `member` is explicitly `true`, the resolved
affiliation set is exactly the explicitly-true flags (unset flags
excluded); if no affiliation flag is explicitly `true`, the resolved set is
every flag of `{owner, collaborator, member}` that is not explicitly
`false`, so it is non-empty unless all three were explicitly set
`false`. -/
theorem authenticated_affiliation_resolution :
    (∀ fl : Flags, buildFetchOptions "Authenticated" fl
        = .ok { type := "Authenticated"
                params := .authParams
                  (authAffiliationParams fl.owner fl.collaborator fl.member)
                  (authVisibility fl.isPublic fl.isPrivate) }) ∧
    ∀ o c m : TriState,
      ((o = .isTrue ∨ c = .isTrue ∨ m = .isTrue) →
        authAffiliation o c m
          = affiliationFlags.filter (fun f => (flagValue o c m f).truthy)) ∧
      ((o ≠ .isTrue ∧ c ≠ .isTrue ∧ m ≠ .isTrue) →
        authAffiliation o c m
            = affiliationFlags.filter (fun f => !(flagValue o c m f == .isFalse))
          ∧ (authAffiliation o c m = [] ↔ o = .isFalse ∧ c = .isFalse ∧ m = .isFalse)) :=
  ⟨fun _ => rfl, by decide⟩

/-- Witness for C1 at concrete flag values: `--collaborator` alone selects
exactly `collaborator`; `--no-member` alone selects `owner` and
`collaborator`. -/
theorem authenticated_affiliation_resolution_witness :
    authAffiliation .unset .isTrue .unset = ["collaborator"]
      ∧ authAffiliation .unset .unset .isFalse = ["owner", "collaborator"] := by
  constructor
  · exact ((authenticated_affiliation_resolution.2 .unset .isTrue .unset).1
      (Or.inr (Or.inl rfl))).trans (by decide)
  · exact (((authenticated_affiliation_resolution.2 .unset .unset .isFalse).2
      ⟨by decide, by decide, by decide⟩).1).trans (by decide)

/-- C2: `exclude` is applied before `match` (the source composes
`handleInclusions (handleExclusions repositories)`); each pattern is tested
against the repository's short `name`; an absent or empty list is a no-op;
a repository is dropped by `exclude` when any pattern matches and kept by
`match` only when every pattern matches; on names `a`, `b`, `c` with
`exclude = ["^a$"]` and `match = ["^(a|b)$"]` the composition keeps exactly
`b`. -/
theorem exclude_then_match_filtering :
    (∀ (test : String → String → Bool) (repos : List Repo),
        handleExclusions test none repos = repos
      ∧ handleExclusions test (some []) repos = repos
      ∧ handleInclusions test none repos = repos
      ∧ handleInclusions test (some []) repos = repos) ∧
    (∀ (test : String → String → Bool) (pats : List String) (repos : List Repo),
        handleExclusions test (some pats) repos
          = repos.filter (fun repo => pats.all (fun p => !test p repo.name))) ∧
    (∀ (test : String → String → Bool) (pats : List String) (repos : List Repo),
        handleInclusions test (some pats) repos
          = repos.filter (fun repo => pats.all (fun p => test p repo.name))) ∧
    handleInclusions regexTest (some ["^(a|b)$"])
        (handleExclusions regexTest (some ["^a$"]) [mkRepo "a", mkRepo "b", mkRepo "c"])
      = [mkRepo "b"] := by
  refine ⟨fun test repos => ⟨rfl, rfl, rfl, rfl⟩, ?_, ?_, by decide⟩
  · intro test pats repos
    cases pats with
    | nil => simp [handleExclusions]
    | cons p ps =>
      simp only [handleExclusions, List.isEmpty_cons, Bool.false_eq_true, if_false]
      apply List.filter_congr
      intro repo _
      rw [foldl_and]
      simp
  · intro test pats repos
    cases pats with
    | nil => simp [handleInclusions]
    | cons p ps =>
      simp only [handleInclusions, List.isEmpty_cons, Bool.false_eq_true, if_false]
      apply List.filter_congr
      intro repo _
      rw [foldl_and]
      simp

/-- C4 (code-bug evidence): the current `run`/`backup` derive no exit code
from the pipeline outcomes — a fatal clone failure or an LFS warning leaves
the completed run's exit code at 0, contradicting the claimed
worst-outcome aggregation. -/
theorem runExitCode_ignores_failures :
    (backup true true envCloneFail ["own/x"]).any (fun o => !o.cloned) = true
  ∧ runExitCode (backup true true envCloneFail ["own/x"]) = 0
  ∧ (backup true false envLfsFail ["own/y"]).any (fun o => o.lfsWarn) = true
  ∧ runExitCode (backup true false envLfsFail ["own/y"]) = 0 :=
  ⟨rfl, rfl, rfl, rfl⟩

/-- C9 counterexample: a `User` listing with only `--member` resolves to
the plain `type: "member"` query parameter — the `organization_member`
remap is applied in the `Authenticated` branch instead, contrary to the
claim that it applies to non-authenticated-account listings. -/
theorem user_listing_member_not_remapped :
    buildFetchOptions "User" memberOnlyFlags
        = .ok { type := "User", params := .typeParams "member" }
  ∧ buildFetchOptions "Authenticated" memberOnlyFlags
        = .ok { type := "Authenticated"
                params := .authParams ["organization_member"] "all" }
  ∧ ("member" : String) ≠ "organization_member" :=
  ⟨rfl, rfl, by decide⟩

/-- C9 (amended): the `member → organization_member` remap is applied
exactly in the `Authenticated` branch of `buildFetchOptions`: the
affiliation parameter of an authenticated listing carries
`organization_member` precisely when `member` was resolved (and never the
plain `member` token), while `User` and `Organization` listings send a
plain `type` parameter that is never `organization_member`. -/
theorem member_remap_only_authenticated :
    (∀ m o : TriState, userTypeParam m o ≠ "organization_member") ∧
    (∀ p v m : TriState, orgTypeParam p v m ≠ "organization_member") ∧
    (∀ o c m : TriState,
        ("organization_member" ∈ authAffiliationParams o c m
            ↔ "member" ∈ authAffiliation o c m)
      ∧ "member" ∉ authAffiliationParams o c m) ∧
    (∀ fl : Flags, buildFetchOptions "User" fl
        = .ok { type := "User", params := .typeParams (userTypeParam fl.member fl.owner) }) :=
  ⟨by decide, by decide, by decide, fun _ => rfl⟩

set_option maxRecDepth 20000 in
/-- C3: a failed page fetch never raises to the caller — after any prefix
of successful pages, a failure makes `recurseRepositories` return exactly
the records accumulated so far; when every page succeeds, following the
`rel="next"` links aggregates all retained records in page order, and a
3-page listing of 100, 100 and 37 records with no permission exclusions
yields exactly 237 records. -/
theorem recurseRepositories_failure_and_pagination :
    (∀ (token : String) (ds : List (List RawRepo)) (rest : List PageResp) (acc : List Repo),
        recurseRepositories token (mkPagesNext ds ++ PageResp.fail :: rest) acc
          = acc ++ (ds.map (processPage token)).flatten) ∧
    (∀ (token : String) (ds : List (List RawRepo)) (acc : List Repo),
        recurseRepositories token (mkPages ds) acc
          = acc ++ (ds.map (processPage token)).flatten) ∧
    (recurseRepositories "tok"
        (mkPages [pageOfSize "p1r" 100, pageOfSize "p2r" 100, pageOfSize "p3r" 37]) []).length
      = 237 := by
  refine ⟨?_, ?_, ?_⟩
  · intro token ds
    induction ds with
    | nil => intro rest acc; simp [mkPagesNext, recurseRepositories]
    | cons d ds ih =>
      intro rest acc
      simp only [mkPagesNext, List.map_cons, List.cons_append] at *
      rw [recurseRepositories, if_pos rfl, ih]
      simp [List.append_assoc]
  · intro token ds
    induction ds with
    | nil => intro acc; simp [mkPages, recurseRepositories]
    | cons d ds ih =>
      intro acc
      cases ds with
      | nil => simp [mkPages, recurseRepositories]
      | cons e es =>
        rw [show mkPages (d :: e :: es) = .ok d true :: mkPages (e :: es) from rfl]
        rw [recurseRepositories, if_pos rfl, ih]
        simp [List.append_assoc]
  · rfl

/-- C5 counterexample: with an empty (falsy) token,
`GithubAPI.get.repositories` throws before inspecting `from`, so an
invocation with a non-empty `from` does not return the empty list for
every token. -/
theorem getRepositories_empty_token_throws :
    getRepositories "" "alice" none [] ≠ .ok [] := by
  intro h
  exact Except.noConfusion h

/-- C5 (amended): for every non-empty token, `GithubAPI.get.repositories`
returns the empty list whenever `from` is non-empty, independently of the
options and of the server's pages (no listing request is consulted); only
a call with `from` empty performs the listing; and the backup command's own
call, which always passes `from` (defaulted to the authenticated user),
yields zero repositories. -/
theorem getRepositories_named_account_returns_empty
    (token fromAcct : String) (options : Option FetchOptions) (pages : List PageResp)
    (auth : Auth) (fromArg : Option String)
    (htok : token ≠ "") (hfrom : fromAcct ≠ "")
    (hatok : auth.token ≠ "") (hafrom : fromArg.getD auth.user ≠ "") :
    getRepositories token fromAcct options pages = .ok []
  ∧ (∀ (options' : Option FetchOptions) (pages' : List PageResp),
      getRepositories token fromAcct options' pages' = .ok [])
  ∧ runFetchRepositories auth fromArg options pages = .ok []
  ∧ (∀ (t : String) (opts : Option FetchOptions) (ps : List PageResp), t ≠ "" →
      getRepositories t "" opts ps = .ok (recurseRepositories t ps [])) := by
  refine ⟨?_, fun o' p' => ?_, ?_, fun t opts ps ht => ?_⟩
  · simp [getRepositories, htok, hfrom]
  · simp [getRepositories, htok, hfrom]
  · simp [runFetchRepositories, getRepositories, hatok, hafrom]
  · simp [getRepositories, ht]

/-- Witness for C5 (amended) at a concrete token, account name and
authentication record. -/
theorem getRepositories_named_account_returns_empty_witness :
    getRepositories "tok" "alice" none [] = .ok []
  ∧ runFetchRepositories { user := "alice", token := "tok" } none none [] = .ok [] := by
  have h := getRepositories_named_account_returns_empty "tok" "alice" none []
      { user := "alice", token := "tok" } none
      (by decide) (by decide) (by decide) (by decide)
  exact ⟨h.1, h.2.2.1⟩

/-- C6: a raw record whose permissions show the caller lacks pull is never
present in the listing client's output — each page keeps exactly the
readable records (so every output record is the normalization of a kept
raw record, at page level and through the whole pagination), and the
number of dropped records per page is the observable difference of the two
lengths the client debug-logs. -/
theorem listing_drops_unreadable_records (token : String) (data : List RawRepo) :
    processPage token data = (data.filter keepRepo).map (normalize token)
  ∧ data.length - (processPage token data).length
      = (data.filter (fun r => !keepRepo r)).length
  ∧ (∀ rec, rec ∈ processPage token data →
      ∃ raw, raw ∈ data ∧ keepRepo raw = true ∧ rec = normalize token raw)
  ∧ (∀ (pages : List PageResp) (acc : List Repo) (rec : Repo),
      rec ∈ recurseRepositories token pages acc →
        rec ∈ acc
      ∨ ∃ data' hasNext, PageResp.ok data' hasNext ∈ pages ∧ rec ∈ processPage token data') := by
  refine ⟨processPage_eq token data, ?_, ?_, ?_⟩
  · rw [processPage_eq, List.length_map]
    have := length_filter_add_not keepRepo data
    omega
  · intro rec hrec
    rw [processPage_eq] at hrec
    rcases List.mem_map.mp hrec with ⟨raw, hraw, hn⟩
    rcases List.mem_filter.mp hraw with ⟨hmem, hkeep⟩
    exact ⟨raw, hmem, hkeep, hn.symm⟩
  · intro pages
    induction pages with
    | nil => intro acc rec h; exact Or.inl h
    | cons pr rest ih =>
      intro acc rec h
      cases pr with
      | fail => exact Or.inl h
      | ok d hasNext =>
        cases hasNext with
        | true =>
          rcases ih (acc ++ processPage token d) rec h with hin | ⟨d', hn', hmem, hrec⟩
          · rcases List.mem_append.mp hin with h1 | h2
            · exact Or.inl h1
            · exact Or.inr ⟨d, true, List.mem_cons_self _ _, h2⟩
          · exact Or.inr ⟨d', hn', List.mem_cons_of_mem _ hmem, hrec⟩
        | false =>
          rcases List.mem_append.mp h with h1 | h2
          · exact Or.inl h1
          · exact Or.inr ⟨d, false, List.mem_cons_self _ _, h2⟩

/-- Witness for C6: in a page holding an unreadable and a readable record,
the output record comes from a kept raw record. -/
theorem listing_drops_unreadable_records_witness :
    ∃ raw, raw ∈ [rawNoPull, rawPull] ∧ keepRepo raw = true
      ∧ normalize "tok" rawPull = normalize "tok" raw :=
  (listing_drops_unreadable_records "tok" [rawNoPull, rawPull]).2.2.1
    (normalize "tok" rawPull) (by decide)

/-- C7 counterexample: on a mirror with one branch ref and one pull ref,
the first cleanup deletes 1 ref and returns `true`; the second invocation
finds zero matching refs yet still returns `true`, so the backup layer
reports it with the same `Refs cleaned` text as the deletion case — not
with the distinct zero-refs-deleted report the claim requires. -/
theorem cleanRefs_zero_refs_not_distinct :
    (cleanGithubRefs mirrorMasterPull).deleted = 1
  ∧ (cleanGithubRefs mirrorMasterPull).returned = true
  ∧ (cleanGithubRefs (cleanGithubRefs mirrorMasterPull).state).deleted = 0
  ∧ (cleanGithubRefs (cleanGithubRefs mirrorMasterPull).state).returned = true
  ∧ cleanRefsReport true = "Refs cleaned" := by
  decide

/-- C7 (amended): ref cleanup deletes exactly the refs whose path contains
a `/pull/` segment; a second run on the same mirror deletes zero refs,
leaves the mirror unchanged and is a success (no warning is raised), but
its report is the distinct `No ref to clean` only when the mirror has no
refs at all (`show-ref` exits 1) — otherwise it reports `Refs cleaned`
like the deletion case. -/
theorem cleanRefs_second_run_success (s : MirrorState) :
    (cleanGithubRefs s).state.lines = s.lines.filter (fun l => !isPullLine l)
  ∧ (cleanGithubRefs s).deleted = (s.lines.filter isPullLine).length
  ∧ (cleanGithubRefs (cleanGithubRefs s).state).deleted = 0
  ∧ (cleanGithubRefs (cleanGithubRefs s).state).state = (cleanGithubRefs s).state
  ∧ ((cleanGithubRefs (cleanGithubRefs s).state).returned
      = !(cleanGithubRefs s).state.lines.isEmpty)
  ∧ cleanRefsReport false = "No ref to clean" := by
  by_cases hL : s.lines.isEmpty
  · have hnil : s.lines = [] := List.isEmpty_iff.mp hL
    refine ⟨?_, ?_, ?_, ?_, ?_, rfl⟩ <;> simp [cleanGithubRefs, hnil]
  · have hLfalse : s.lines.isEmpty = false := by
      cases hh : s.lines.isEmpty
      · rfl
      · exact absurd hh hL
    have hfilter : s.lines.filter (fun l =>
        match refnameOf l with
        | some r => !(refsToDelete s.lines).contains r
        | none => true) = s.lines.filter (fun l => !isPullLine l) := by
      apply List.filter_congr
      intro l hl
      cases hr : refnameOf l with
      | none => simp [isPullLine, hr]
      | some r =>
        by_cases hp : isPullName r
        · have hmem : r ∈ refsToDelete s.lines := pull_line_mem_refsToDelete hl hr hp
          simp [isPullLine, hr, hp, hmem]
        · have hnmem : r ∉ refsToDelete s.lines := fun hmem => hp (mem_refsToDelete_isPull hmem)
          simp [isPullLine, hr, hp, hnmem]
    have hstate : (cleanGithubRefs s).state = ⟨s.lines.filter (fun l => !isPullLine l)⟩ := by
      simp only [cleanGithubRefs, hLfalse, Bool.false_eq_true, if_false]
      exact congrArg MirrorState.mk hfilter
    have hdel : (cleanGithubRefs s).deleted = (s.lines.filter isPullLine).length := by
      simp only [cleanGithubRefs, hLfalse, Bool.false_eq_true, if_false]
      rw [refsToDelete_eq]
      exact length_filterMap_eq_filter pullNameOf isPullLine pullNameOf_isSome s.lines
    have h0 : refsToDelete (s.lines.filter (fun l => !isPullLine l)) = [] := by
      rw [refsToDelete_eq]
      apply List.filterMap_eq_nil_iff.mpr
      intro l hl
      have hfl := (List.mem_filter.mp hl).2
      have hiso := pullNameOf_isSome l
      cases hpn : pullNameOf l with
      | none => rfl
      | some b =>
        rw [hpn] at hiso
        rw [← hiso] at hfl
        simp at hfl
    refine ⟨by rw [hstate], hdel, ?_, ?_, ?_, rfl⟩
    · rw [hstate]
      by_cases hF : (s.lines.filter (fun l => !isPullLine l)).isEmpty
      · simp [cleanGithubRefs, hF]
      · have hFfalse : (s.lines.filter (fun l => !isPullLine l)).isEmpty = false := by
          cases hh : (s.lines.filter (fun l => !isPullLine l)).isEmpty
          · rfl
          · exact absurd hh hF
        simp [cleanGithubRefs, hFfalse, h0]
    · rw [hstate]
      by_cases hF : (s.lines.filter (fun l => !isPullLine l)).isEmpty
      · simp [cleanGithubRefs, hF]
      · have hFfalse : (s.lines.filter (fun l => !isPullLine l)).isEmpty = false := by
          cases hh : (s.lines.filter (fun l => !isPullLine l)).isEmpty
          · rfl
          · exact absurd hh hF
        simp only [cleanGithubRefs, hFfalse, Bool.false_eq_true, if_false]
        have hpred : ∀ l ∈ s.lines.filter (fun l => !isPullLine l),
            (match refnameOf l with
             | some r => !(refsToDelete (s.lines.filter (fun l => !isPullLine l))).contains r
             | none => true) = true := by
          intro l _
          rw [h0]
          cases refnameOf l <;> simp
        have hft : (s.lines.filter (fun l => !isPullLine l)).filter
            (fun l => match refnameOf l with
             | some r => !(refsToDelete (s.lines.filter (fun l => !isPullLine l))).contains r
             | none => true)
            = s.lines.filter (fun l => !isPullLine l) := by
          rw [List.filter_congr hpred, List.filter_true]
        exact congrArg MirrorState.mk hft
    · rw [hstate]
      by_cases hF : (s.lines.filter (fun l => !isPullLine l)).isEmpty
      · simp [cleanGithubRefs, hF]
      · have hFfalse : (s.lines.filter (fun l => !isPullLine l)).isEmpty = false := by
          cases hh : (s.lines.filter (fun l => !isPullLine l)).isEmpty
          · rfl
          · exact absurd hh hF
        simp [cleanGithubRefs, hFfalse]

/-- C8: a clone failure is confined to its repository — `backup` attempts
every selected repository exactly once (one outcome per repository, in
order, keyed by full name), and changing the external results of one
repository `r` (for example its clone failing) leaves every sibling's
outcome unchanged. -/
theorem backup_clone_failure_isolated (lfs cleanRefs : Bool) (e e' : PipelineEnv)
    (repos : List String) (r : String)
    (h : ∀ x, x ≠ r →
      e.cloneOk x = e'.cloneOk x ∧ e.lfsOk x = e'.lfsOk x ∧ e.refsOk x = e'.refsOk x) :
    (backup lfs cleanRefs e repos).map RepoOutcome.fullName = repos
  ∧ ((backup lfs cleanRefs e repos).zip (backup lfs cleanRefs e' repos)).all
      (fun pr => pr.1.fullName == r || pr.1 == pr.2) = true := by
  have hname : ∀ (env : PipelineEnv) (x : String),
      (processRepo lfs cleanRefs env x).fullName = x := by
    intro env x
    unfold processRepo
    by_cases hx : env.cloneOk x <;> simp [hx]
  constructor
  · rw [backup, List.map_map]
    exact (List.map_congr_left (fun a _ => hname e a)).trans (List.map_id repos)
  · rw [backup, backup, List.zip_map', all_map_general]
    rw [List.all_eq_true]
    intro x hx
    by_cases hxr : x = r
    · simp [hname, hxr]
    · obtain ⟨h1, h2, h3⟩ := h x hxr
      have heq : processRepo lfs cleanRefs e x = processRepo lfs cleanRefs e' x := by
        unfold processRepo
        rw [h1, h2, h3]
      simp [heq]

/-- Witness for C8: with three repositories of which only `own/x` fails to
clone, all three are attempted in order and the siblings' outcomes match
the all-success run. -/
theorem backup_clone_failure_isolated_witness :
    (backup true true envFailX ["own/x", "own/y", "own/z"]).map RepoOutcome.fullName
        = ["own/x", "own/y", "own/z"]
  ∧ ((backup true true envFailX ["own/x", "own/y", "own/z"]).zip
        (backup true true envAllOk ["own/x", "own/y", "own/z"])).all
      (fun pr => pr.1.fullName == "own/x" || pr.1 == pr.2) = true :=
  backup_clone_failure_isolated true true envFailX envAllOk
    ["own/x", "own/y", "own/z"] "own/x"
    (fun x hx => ⟨by simp [envFailX, envAllOk, hx], rfl, rfl⟩)

/-- C10: on shutdown, the destination directory is removed exactly when it
was created by this run and is still empty; a pre-existing or non-empty
destination is left untouched and the process exits with status 130
(`checkDestination` records creation in `destinationCreated`). -/
theorem shutdown_cleanup_decision :
    (∀ destinationCreated destEmpty : Bool,
        (shutdown destinationCreated destEmpty).removedDestination
            = (destinationCreated && destEmpty)
      ∧ (shutdown destinationCreated destEmpty).exitCode
            = (if destinationCreated && destEmpty then none else some 130)) ∧
    checkDestination .preexistingWritable = .ok false ∧
    checkDestination .absentCreatable = .ok true :=
  ⟨by decide, rfl, rfl⟩

end Gbulk
